import Mathlib

/-!
# reDS1307: register-level driver for the DS1307 real-time clock

A shallow embedding of `src/src/reDS1307.cpp` and `src/include/reDS1307.h`.

* `uint8_t` values are natural numbers; every place where C narrows an `int`
  expression to `uint8_t` (a return, an initialiser, an argument) is an explicit
  `% 256` (or `toU8` for a signed `int`).
* `struct tm` fields are `int`; they are modelled as `Int`.
* The I2C primitives `readI2C` / `writeI2C` come from another library; they are
  modelled as a register-backed double that records every transaction and can
  be scripted to fail.
* Logging (`rlog_i`, `rlog_e`) has no effect on the results and is left out.
-/

namespace reDS1307

/-! ## Constants (reDS1307.cpp, lines 8-27) -/

def RAM_SIZE : Nat := 56

def TIME_REG : Nat := 0
def CONTROL_REG : Nat := 7
def RAM_REG : Nat := 8

def CH_BIT : Nat := 1 <<< 7
def HOUR12_BIT : Nat := 1 <<< 6
def PM_BIT : Nat := 1 <<< 5
def SQWE_BIT : Nat := 1 <<< 4
def OUT_BIT : Nat := 1 <<< 7

def CH_MASK : Nat := 0x7f
def SECONDS_MASK : Nat := 0x7f
def HOUR12_MASK : Nat := 0x1f
def HOUR24_MASK : Nat := 0x3f
def SQWEF_MASK : Nat := 0xfc
def SQWE_MASK : Nat := 0xef
def OUT_MASK : Nat := 0x7f

/-! ## Codec helpers (reDS1307.cpp, lines 29-37) -/

/-- Conversion of a C `int` to `uint8_t`: reduction modulo 256. -/
def toU8 (x : Int) : Nat := (x % 256).toNat

/-- The function `bcd2dec`: `(val >> 4) * 10 + (val & 0x0f)`, narrowed to `uint8_t`. -/
def bcd2dec (val : Nat) : Nat := ((val >>> 4) * 10 + (val &&& 0x0f)) % 256

/-- The function `dec2bcd`: `((val / 10) << 4) + (val % 10)`, narrowed to `uint8_t`. -/
def dec2bcd (val : Nat) : Nat := (((val / 10) <<< 4) + (val % 10)) % 256

/-! ## The calendar record -/

/-- The fields of `struct tm` that the driver reads or writes (all `int` in C). -/
structure Tm where
  tm_sec : Int
  tm_min : Int
  tm_hour : Int
  tm_mday : Int
  tm_mon : Int
  tm_year : Int
  tm_wday : Int
deriving DecidableEq, Repr

/-- The enumeration `ds1307_squarewave_freq_t`; a C enumeration value is its integer. -/
structure ds1307_squarewave_freq_t where
  val : Int
deriving DecidableEq, Repr

def DS1307_1HZ : ds1307_squarewave_freq_t := ⟨0⟩
def DS1307_4096HZ : ds1307_squarewave_freq_t := ⟨1⟩
def DS1307_8192HZ : ds1307_squarewave_freq_t := ⟨2⟩
def DS1307_32768HZ : ds1307_squarewave_freq_t := ⟨3⟩

/-- The four declared enumeration values. -/
def freqValues : List ds1307_squarewave_freq_t :=
  [DS1307_1HZ, DS1307_4096HZ, DS1307_8192HZ, DS1307_32768HZ]

/-! ## The bus double -/

/-- One bus transaction as seen by a test double: direction, first register,
byte count and whether it succeeded. -/
structure Txn where
  isWrite : Bool
  reg : Nat
  size : Nat
  ok : Bool
deriving DecidableEq, Repr

/-- A register-backed bus double: the register file, the script saying which
transactions (numbered from 0 in issue order) return an error, and the log of the
transactions issued so far. -/
structure Bus where
  regs : Nat → Nat
  fails : Nat → Bool
  log : List Txn

/-- Modelled from the spec: the bus collaborator `read(channel, address, registerByte,
inBuffer, length, flags, timeoutMs) -> BusError` (reI2C.h is not part of the
repository), as a register-backed double.  A failing transaction delivers no
bytes; a successful one delivers `size` consecutive registers starting at `reg`. -/
def readI2C (s : Bus) (reg size : Nat) : Option (List Nat) × Bus :=
  if s.fails s.log.length then
    (none, { s with log := s.log ++ [⟨false, reg, size, false⟩] })
  else
    (some ((List.range size).map (fun i => s.regs (reg + i))),
      { s with log := s.log ++ [⟨false, reg, size, true⟩] })

/-- Modelled from the spec: the bus collaborator `write(channel, address, registerByte,
outBytes, length, timeoutMs) -> BusError` (reI2C.h is not part of the repository),
as a register-backed double.  A failing transaction changes no register; a
successful one stores the first `size` bytes of `val` at `reg`, `reg + 1`, ... -/
def writeI2C (s : Bus) (reg : Nat) (val : List Nat) (size : Nat) : Bool × Bus :=
  if s.fails s.log.length then
    (false, { s with log := s.log ++ [⟨true, reg, size, false⟩] })
  else
    (true,
      { s with
        regs := fun a => if reg ≤ a ∧ a < reg + size then val.getD (a - reg) 0 else s.regs a
        log := s.log ++ [⟨true, reg, size, true⟩] })

/-! ## Register access layer (reDS1307.cpp, lines 50-80) -/

/-- The method `read_register`: `none` is the C result `false`, `some buf` is `true`
with the bytes stored through `val`. -/
def read_register (s : Bus) (reg size : Nat) : Option (List Nat) × Bus :=
  match readI2C s reg size with
  | (none, s1) => (none, s1)
  | (some buf, s1) => (some buf, s1)

/-- The method `write_register`. -/
def write_register (s : Bus) (reg : Nat) (val : List Nat) (size : Nat) : Bool × Bus :=
  match writeI2C s reg val size with
  | (false, s1) => (false, s1)
  | (true, s1) => (true, s1)

/-- The method `update_register`: read one byte, write back `(old & mask) | val`. -/
def update_register (s : Bus) (reg mask val : Nat) : Bool × Bus :=
  match read_register s reg 1 with
  | (some old, s1) =>
    let buf := ((old.getD 0 0 &&& mask) ||| val) % 256
    match write_register s1 reg [buf] 1 with
    | (true, s2) => (true, s2)
    | (false, s2) => (false, s2)
  | (none, s1) => (false, s1)

/-! ## Public operations (reDS1307.cpp, lines 82-219) -/

/-- The method `start`. -/
def start (s : Bus) (start : Bool) : Bool × Bus :=
  match update_register s TIME_REG CH_MASK (if start then 0 else CH_BIT) with
  | (true, s1) => (true, s1)
  | (false, s1) => (false, s1)

/-- The method `is_running`. -/
def is_running (s : Bus) : Bool × Bus :=
  match read_register s TIME_REG 1 with
  | (some val, s1) => (if val.getD 0 0 &&& CH_BIT ≠ 0 then false else true, s1)
  | (none, s1) => (false, s1)

/-- The unpacking done by `get_time` on the 7 bytes it has read (lines 109-121). -/
def get_time_decode (buf : List Nat) : Tm :=
  let b := fun i => buf.getD i 0
  { tm_sec := (bcd2dec ((b 0 &&& SECONDS_MASK) % 256) : Int)
    tm_min := (bcd2dec (b 1) : Int)
    tm_hour :=
      if b 2 &&& HOUR12_BIT ≠ 0 then
        let h : Int := (bcd2dec ((b 2 &&& HOUR12_MASK) % 256) : Int) - 1
        if b 2 &&& PM_BIT ≠ 0 then h + 12 else h
      else
        (bcd2dec ((b 2 &&& HOUR24_MASK) % 256) : Int)
    tm_wday := (bcd2dec (b 3) : Int) - 1
    tm_mday := (bcd2dec (b 4) : Int)
    tm_mon := (bcd2dec (b 5) : Int) - 1
    tm_year := (bcd2dec (b 6) : Int) + 100 }

/-- The method `get_time`: one 7-byte read at `TIME_REG`, then the unpacking. -/
def get_time (s : Bus) : Option Tm × Bus :=
  match read_register s TIME_REG 7 with
  | (some buf, s1) => (some (get_time_decode buf), s1)
  | (none, s1) => (none, s1)

/-- The initialiser of `buf` in `set_time` (lines 132-140). -/
def set_time_encode (time : Tm) : List Nat :=
  [ dec2bcd (toU8 time.tm_sec),
    dec2bcd (toU8 time.tm_min),
    dec2bcd (toU8 time.tm_hour),
    dec2bcd (toU8 (time.tm_wday + 1)),
    dec2bcd (toU8 time.tm_mday),
    dec2bcd (toU8 (time.tm_mon + 1)),
    dec2bcd (toU8 (time.tm_year - 100)) ]

/-- The method `set_time`: one 7-byte write at `TIME_REG`. -/
def set_time (s : Bus) (time : Tm) : Bool × Bus :=
  match write_register s TIME_REG (set_time_encode time) 7 with
  | (true, s1) => (true, s1)
  | (false, s1) => (false, s1)

/-- The method `enable_squarewave`. -/
def enable_squarewave (s : Bus) (enable : Bool) : Bool × Bus :=
  match update_register s CONTROL_REG SQWE_MASK (if enable then SQWE_BIT else 0) with
  | (true, s1) => (true, s1)
  | (false, s1) => (false, s1)

/-- The method `is_squarewave_enabled`. -/
def is_squarewave_enabled (s : Bus) : Bool × Bus :=
  match read_register s CONTROL_REG 1 with
  | (some val, s1) => (decide (val.getD 0 0 &&& SQWE_BIT ≠ 0), s1)
  | (none, s1) => (false, s1)

/-- The value of a 32-bit two's-complement bit pattern as a C `int`. -/
def ofBits32 (p : Nat) : Int :=
  if p % 2 ^ 32 < 2 ^ 31 then (p % 2 ^ 32 : Nat) else (p % 2 ^ 32 : Nat) - 2 ^ 32

/-- The bit pattern of `~x` for a 32-bit `int` whose bit pattern is `x`. -/
def not32 (x : Nat) : Nat := 0xffffffff ^^^ (x % 2 ^ 32)

/-- The method `get_squarewave_freq`: `val & ~SQWEF_MASK` is computed on `int`
(the promoted `val`, the complement of the `int` constant 0xfc), on 32-bit
two's-complement bit patterns. -/
def get_squarewave_freq (s : Bus) : Option ds1307_squarewave_freq_t × Bus :=
  match read_register s CONTROL_REG 1 with
  | (some val, s1) => (some ⟨ofBits32 (val.getD 0 0 &&& not32 SQWEF_MASK)⟩, s1)
  | (none, s1) => (none, s1)

/-- The method `set_squarewave_freq`. -/
def set_squarewave_freq (s : Bus) (freq : ds1307_squarewave_freq_t) : Bool × Bus :=
  update_register s CONTROL_REG SQWEF_MASK (toU8 freq.val)

/-- The method `get_output`. -/
def get_output (s : Bus) : Bool × Bus :=
  match read_register s CONTROL_REG 1 with
  | (some val, s1) => (decide (val.getD 0 0 &&& OUT_BIT ≠ 0), s1)
  | (none, s1) => (false, s1)

/-- The method `set_output`. -/
def set_output (s : Bus) (value : Bool) : Bool × Bus :=
  update_register s CONTROL_REG OUT_MASK (if value then OUT_BIT else 0)

/-- The method `read_rom`; `offset + len` is an `int` sum, the register argument
`RAM_REG + offset` is narrowed to `uint8_t`. -/
def read_rom (s : Bus) (offset len : Nat) : Option (List Nat) × Bus :=
  if offset + len > RAM_SIZE then (none, s)
  else
    match read_register s ((RAM_REG + offset) % 256) len with
    | (some buf, s1) => (some buf, s1)
    | (none, s1) => (none, s1)

/-- The method `write_rom`. -/
def write_rom (s : Bus) (offset : Nat) (buf : List Nat) (len : Nat) : Bool × Bus :=
  if offset + len > RAM_SIZE then (false, s)
  else
    match write_register s ((RAM_REG + offset) % 256) buf len with
    | (true, s1) => (true, s1)
    | (false, s1) => (false, s1)

/-! ## Predicates and sample inputs used in the statements -/

/-- The ranges of a valid calendar time, the year apart: seconds 0-59, minutes 0-59,
hour 0-23, weekday 0-6, day of month 1-31, month 0-11. -/
def validFields (t : Tm) : Prop :=
  (0 ≤ t.tm_sec ∧ t.tm_sec ≤ 59) ∧ (0 ≤ t.tm_min ∧ t.tm_min ≤ 59) ∧
  (0 ≤ t.tm_hour ∧ t.tm_hour ≤ 23) ∧ (0 ≤ t.tm_wday ∧ t.tm_wday ≤ 6) ∧
  (1 ≤ t.tm_mday ∧ t.tm_mday ≤ 31) ∧ (0 ≤ t.tm_mon ∧ t.tm_mon ≤ 11)

instance (t : Tm) : Decidable (validFields t) := by
  unfold validFields
  infer_instance

/-- No transaction on this bus ever returns an error. -/
def NoErrors (s : Bus) : Prop := ∀ n, s.fails n = false

/-- A bus without errors whose clock is halted: register 0 holds 0x80. -/
def haltedBus : Bus := ⟨fun a => if a = 0 then 0x80 else 0, fun _ => false, []⟩

/-- A bus without errors whose registers all hold zero. -/
def zeroBus : Bus := ⟨fun _ => 0, fun _ => false, []⟩

/-- Saturday 1 January 2000, 00:00:00 (`tm_year` counts from 1900). -/
def y2k : Tm := ⟨0, 0, 0, 1, 0, 100, 6⟩

/-- Friday 31 December 1999, 23:59:59 (`tm_year` counts from 1900). -/
def eve1999 : Tm := ⟨59, 59, 23, 31, 11, 99, 5⟩

/-- A bus without errors whose hour register holds 0x72: 12-hour mode, PM, hour 12. -/
def noonPmBus : Bus := ⟨fun a => if a = 2 then 0x72 else 1, fun _ => false, []⟩

/-- The 56 bytes 0, 1, ..., 55. -/
def sampleRom : List Nat := List.range 56

/-- A bus without errors whose CONTROL register holds 0xb6. -/
def controlBus : Bus := ⟨fun a => if a = 7 then 0xb6 else 0, fun _ => false, []⟩

/-- A call of one public operation together with its arguments. -/
inductive Op where
  | start (b : Bool)
  | is_running
  | get_time
  | set_time (t : Tm)
  | enable_squarewave (b : Bool)
  | is_squarewave_enabled
  | get_squarewave_freq
  | set_squarewave_freq (f : ds1307_squarewave_freq_t)
  | get_output
  | set_output (b : Bool)
  | read_rom (offset len : Nat)
  | write_rom (offset : Nat) (buf : List Nat) (len : Nat)

/-- The C `bool` that a call returns, and the bus after the call. -/
def Op.run : Op → Bus → Bool × Bus
  | .start b, s => reDS1307.start s b
  | .is_running, s => reDS1307.is_running s
  | .get_time, s => ((reDS1307.get_time s).1.isSome, (reDS1307.get_time s).2)
  | .set_time t, s => reDS1307.set_time s t
  | .enable_squarewave b, s => reDS1307.enable_squarewave s b
  | .is_squarewave_enabled, s => reDS1307.is_squarewave_enabled s
  | .get_squarewave_freq, s =>
    ((reDS1307.get_squarewave_freq s).1.isSome, (reDS1307.get_squarewave_freq s).2)
  | .set_squarewave_freq f, s => reDS1307.set_squarewave_freq s f
  | .get_output, s => reDS1307.get_output s
  | .set_output b, s => reDS1307.set_output s b
  | .read_rom offset len, s =>
    ((reDS1307.read_rom s offset len).1.isSome, (reDS1307.read_rom s offset len).2)
  | .write_rom offset buf len, s => reDS1307.write_rom s offset buf len

/-- A result `r` with the transactions `new` issued for it stops at the first
failure: a failed transaction is the last one and makes the result false. -/
def StopsAtFailure (r : Bool) (new : List Txn) : Prop :=
  ∀ (pre post : List Txn) (e : Txn), new = pre ++ e :: post → e.ok = false →
    r = false ∧ post = []

/-- A bus on which every transaction fails; CONTROL holds 0xb6. -/
def deadBus : Bus := ⟨fun a => if a = 7 then 0xb6 else 0, fun _ => true, []⟩

/-- A bus on which the first transaction succeeds and the second fails. -/
def flakyBus : Bus := ⟨fun a => if a = 7 then 0xb6 else 0, fun n => n == 1, []⟩

/-- The byte `b` is a two-digit BCD number (low nibble at most 9) whose value lies
in `lo..hi`. -/
def bcdIn (b lo hi : Nat) : Prop :=
  b &&& 0x0f ≤ 9 ∧ lo ≤ (b >>> 4) * 10 + (b &&& 0x0f) ∧ (b >>> 4) * 10 + (b &&& 0x0f) ≤ hi

instance (b lo hi : Nat) : Decidable (bcdIn b lo hi) := by
  unfold bcdIn
  infer_instance

/-- Registers 0-6 hold a TIME block the chip can hold: BCD seconds 00-59 under the
halt bit, minutes 00-59, an hour that is either 24-hour 00-23 (bit 6 clear) or
12-hour 1-12 (bit 6 set, bit 5 the PM flag), weekday 1-7, date 01-31, month 01-12,
year 00-99. -/
def chipTimeBlock (r : Nat → Nat) : Prop :=
  bcdIn (r 0 &&& 0x7f) 0 59 ∧ bcdIn (r 1) 0 59 ∧
  ((r 2 &&& 0x40 = 0 ∧ bcdIn (r 2 &&& 0x3f) 0 23) ∨
    (r 2 &&& 0x40 ≠ 0 ∧ bcdIn (r 2 &&& 0x1f) 1 12)) ∧
  bcdIn (r 3) 1 7 ∧ bcdIn (r 4) 1 31 ∧ bcdIn (r 5) 1 12 ∧ bcdIn (r 6) 0 99

instance (r : Nat → Nat) : Decidable (chipTimeBlock r) := by
  unfold chipTimeBlock
  infer_instance

/-- A bus without errors holding Friday 31 December 2021, 11:59:58 PM in 12-hour
mode with the clock halted: bytes 0xd8 0x59 0x71 0x06 0x31 0x12 0x21. -/
def chipBus : Bus :=
  ⟨fun a => [0xd8, 0x59, 0x71, 0x06, 0x31, 0x12, 0x21].getD a 0, fun _ => false, []⟩

/-! ## Bus and codec lemmas -/

theorem readI2C_ok (s : Bus) (reg size : Nat) (h : s.fails s.log.length = false) :
    readI2C s reg size =
      (some ((List.range size).map (fun i => s.regs (reg + i))),
        { s with log := s.log ++ [⟨false, reg, size, true⟩] }) := by
  simp [readI2C, h]

theorem readI2C_err (s : Bus) (reg size : Nat) (h : s.fails s.log.length = true) :
    readI2C s reg size = (none, { s with log := s.log ++ [⟨false, reg, size, false⟩] }) := by
  simp [readI2C, h]

theorem writeI2C_ok (s : Bus) (reg size : Nat) (val : List Nat)
    (h : s.fails s.log.length = false) :
    writeI2C s reg val size =
      (true,
        { s with
          regs := fun a =>
            if reg ≤ a ∧ a < reg + size then val.getD (a - reg) 0 else s.regs a
          log := s.log ++ [⟨true, reg, size, true⟩] }) := by
  simp [writeI2C, h]

theorem writeI2C_err (s : Bus) (reg size : Nat) (val : List Nat)
    (h : s.fails s.log.length = true) :
    writeI2C s reg val size = (false, { s with log := s.log ++ [⟨true, reg, size, false⟩] }) := by
  simp [writeI2C, h]

theorem read_register_eq (s : Bus) (reg size : Nat) :
    read_register s reg size = readI2C s reg size := by
  unfold read_register
  split <;> simp_all

theorem write_register_eq (s : Bus) (reg size : Nat) (val : List Nat) :
    write_register s reg val size = writeI2C s reg val size := by
  unfold write_register
  split <;> simp_all

/-- An `int` in `[0, 256)` narrows to itself. -/
theorem toU8_of_range (x : Int) (h0 : 0 ≤ x) (h1 : x < 256) : (toU8 x : Int) = x := by
  unfold toU8
  omega

theorem toU8_lt (x : Int) (lo hi : Nat) (h0 : (lo : Int) ≤ x) (h1 : x ≤ hi) (hh : hi < 256) :
    lo ≤ toU8 x ∧ toU8 x ≤ hi := by
  unfold toU8
  omega

/-! ## Codec facts -/

/-- The BCD round trip, checked value by value below 100. -/
theorem bcd_table : ∀ m, m < 100 → bcd2dec (dec2bcd m) = m := by
  decide

/-- C3: for every integer `n` with `0 ≤ n ≤ 99`, `bcd2dec (dec2bcd n) = n`, both
functions computed in 8-bit unsigned arithmetic. -/
theorem bcd2dec_dec2bcd (n : Nat) (h : n ≤ 99) : bcd2dec (dec2bcd n) = n := by
  have hlt : n < 100 := by omega
  exact bcd_table n hlt

/-- C3 instance: the round trip at 59. -/
theorem bcd2dec_dec2bcd_witness : 59 ≤ 99 ∧ bcd2dec (dec2bcd 59) = 59 :=
  ⟨by decide, bcd2dec_dec2bcd 59 (by decide)⟩

/-- Narrowing followed by `dec2bcd` and `bcd2dec` gives back an `int` in `[0, 99]`. -/
theorem bcd_field_roundtrip (x : Int) (h0 : 0 ≤ x) (h1 : x ≤ 99) :
    (bcd2dec (dec2bcd (toU8 x)) : Int) = x := by
  have hr := toU8_lt x 0 99 (by simpa using h0) (by simpa using h1) (by decide)
  rw [bcd_table (toU8 x) (by omega)]
  exact toU8_of_range x h0 (by omega)

/-- The hour byte written for an hour in 0..23 decodes through the 24-hour branch. -/
theorem hour24_byte (n : Nat) (h : n ≤ 23) :
    dec2bcd n &&& HOUR12_BIT = 0 ∧ bcd2dec ((dec2bcd n &&& HOUR24_MASK) % 256) = n := by
  have key : ∀ m, m < 24 →
      dec2bcd m &&& HOUR12_BIT = 0 ∧ bcd2dec ((dec2bcd m &&& HOUR24_MASK) % 256) = m := by
    decide
  exact key n (by omega)

/-- The seconds byte written for a second in 0..59 has the halt bit clear and
decodes to the same second. -/
theorem seconds_byte (n : Nat) (h : n ≤ 59) :
    dec2bcd n &&& CH_BIT = 0 ∧ bcd2dec ((dec2bcd n &&& SECONDS_MASK) % 256) = n := by
  have key : ∀ m, m < 60 →
      dec2bcd m &&& CH_BIT = 0 ∧ bcd2dec ((dec2bcd m &&& SECONDS_MASK) % 256) = m := by
    decide
  exact key n (by omega)

/-! ## Calendar time -/

/-- C1, as the code behaves: for every register state and every calendar time whose
fields are in range, a successful `set_time` leaves the clock-halt bit of register 0
clear, and an `is_running` whose read succeeds then returns `true`. -/
theorem set_time_clears_halt (s : Bus) (t : Tm) (hv : validFields t)
    (hok : (set_time s t).1 = true) :
    (set_time s t).2.regs TIME_REG &&& CH_BIT = 0 ∧
      ((set_time s t).2.fails (set_time s t).2.log.length = false →
        (is_running (set_time s t).2).1 = true) := by
  obtain ⟨⟨hs0, hs1⟩, -⟩ := hv
  have hr := toU8_lt t.tm_sec 0 59 (by simpa using hs0) (by simpa using hs1) (by decide)
  have hbit := (seconds_byte (toU8 t.tm_sec) hr.2).1
  cases hf : s.fails s.log.length with
  | true =>
    simp [set_time, write_register_eq, writeI2C_err, hf] at hok
  | false =>
    have hst : set_time s t = writeI2C s TIME_REG (set_time_encode t) 7 := by
      simp [set_time, write_register_eq, writeI2C_ok, hf]
    rw [hst, writeI2C_ok _ _ _ _ hf]
    have hreg : (if TIME_REG ≤ TIME_REG ∧ TIME_REG < TIME_REG + 7 then
        (set_time_encode t).getD (TIME_REG - TIME_REG) 0 else s.regs TIME_REG) =
        dec2bcd (toU8 t.tm_sec) := by
      simp [TIME_REG, set_time_encode]
    refine ⟨by simpa [hreg] using hbit, ?_⟩
    intro hnext
    simp only [is_running, read_register_eq]
    rw [readI2C_ok _ _ _ hnext]
    simp [TIME_REG, set_time_encode, hbit]

/-- C1 instance: a halted bus, set to 1 January 2000. -/
theorem set_time_clears_halt_witness :
    validFields y2k ∧ (set_time haltedBus y2k).1 = true ∧
      (set_time haltedBus y2k).2.regs TIME_REG &&& CH_BIT = 0 :=
  ⟨by decide, by decide, (set_time_clears_halt haltedBus y2k (by decide) (by decide)).1⟩

/-- C1 fails as stated: on a bus whose halt bit is set (so `is_running` returns
`false`), a successful `set_time` of a valid time clears the halt bit and
`is_running` returns `true` afterwards. -/
theorem set_time_starts_halted_clock :
    haltedBus.regs TIME_REG &&& CH_BIT ≠ 0 ∧ (is_running haltedBus).1 = false ∧
      validFields y2k ∧ (set_time haltedBus y2k).1 = true ∧
      (set_time haltedBus y2k).2.regs TIME_REG &&& CH_BIT = 0 ∧
      (is_running (set_time haltedBus y2k).2).1 = true := by
  decide

/-- C2, as the code behaves: for every calendar time with seconds 0-59, minutes 0-59,
hour 0-23, weekday 0-6, day 1-31, month 0-11 and `tm_year` (years since 1900) in
100..199, that is a year offset of 0-99 from 2000, unpacking as `get_time` does the
7-byte block that `set_time` packs gives back every field. -/
theorem decode_encode_2000s (t : Tm) (hv : validFields t)
    (hy : 100 ≤ t.tm_year ∧ t.tm_year ≤ 199) :
    get_time_decode (set_time_encode t) = t := by
  obtain ⟨⟨hs0, hs1⟩, ⟨hm0, hm1⟩, ⟨hh0, hh1⟩, ⟨hw0, hw1⟩, ⟨hd0, hd1⟩, ⟨ho0, ho1⟩⟩ := hv
  obtain ⟨hy0, hy1⟩ := hy
  have rs := toU8_lt t.tm_sec 0 59 (by simpa using hs0) (by simpa using hs1) (by decide)
  have rh := toU8_lt t.tm_hour 0 23 (by simpa using hh0) (by simpa using hh1) (by decide)
  have es : (toU8 t.tm_sec : Int) = t.tm_sec := toU8_of_range _ hs0 (by omega)
  have eh : (toU8 t.tm_hour : Int) = t.tm_hour := toU8_of_range _ hh0 (by omega)
  have fsec := seconds_byte (toU8 t.tm_sec) rs.2
  have fhour := hour24_byte (toU8 t.tm_hour) rh.2
  have fmin := bcd_field_roundtrip t.tm_min hm0 (by omega)
  have fwday := bcd_field_roundtrip (t.tm_wday + 1) (by omega) (by omega)
  have fmday := bcd_field_roundtrip t.tm_mday (by omega) (by omega)
  have fmon := bcd_field_roundtrip (t.tm_mon + 1) (by omega) (by omega)
  have fyear := bcd_field_roundtrip (t.tm_year - 100) (by omega) (by omega)
  cases t with
  | mk sec min hour mday mon year wday =>
    simp only [get_time_decode, set_time_encode, List.getD_cons_zero, List.getD_cons_succ] at *
    simp only [fsec.2, fhour.1, fhour.2, fmin, fwday, fmday, fmon, fyear, es, eh]
    simp

/-- C2 instance: 1 January 2000 survives the round trip. -/
theorem decode_encode_2000s_witness :
    validFields y2k ∧ (100 ≤ y2k.tm_year ∧ y2k.tm_year ≤ 199) ∧
      get_time_decode (set_time_encode y2k) = y2k :=
  ⟨by decide, by decide, decode_encode_2000s y2k (by decide) (by decide)⟩

/-- C2 fails as stated: 31 December 1999, 23:59:59 has every field in the stated
ranges with year offset 99 from 1900, yet the round trip returns `tm_year = 195`. -/
theorem decode_encode_1999 :
    validFields eve1999 ∧ (0 ≤ eve1999.tm_year ∧ eve1999.tm_year ≤ 99) ∧
      (get_time_decode (set_time_encode eve1999)).tm_year = 195 ∧
      get_time_decode (set_time_encode eve1999) ≠ eve1999 := by
  decide

/-- C4: for every register state whose hour byte (register 2) has the 12-hour-mode
bit set, a `get_time` whose read succeeds returns
`tm_hour = bcd2dec (hourByte & 0x1f) - 1`, plus 12 when the PM bit is set; hour
field 12 with PM set gives 23, hour field 12 with PM clear gives 11, hour field 1
with PM clear gives 0. -/
theorem get_time_hour12 (s : Bus) (hok : s.fails s.log.length = false)
    (h12 : s.regs 2 &&& HOUR12_BIT ≠ 0) :
    ∃ t, (get_time s).1 = some t ∧
      t.tm_hour =
        (bcd2dec (s.regs 2 &&& 0x1f) : Int) - 1 + (if s.regs 2 &&& PM_BIT ≠ 0 then 12 else 0) ∧
      (s.regs 2 &&& 0x1f = 0x12 → s.regs 2 &&& PM_BIT ≠ 0 → t.tm_hour = 23) ∧
      (s.regs 2 &&& 0x1f = 0x12 → s.regs 2 &&& PM_BIT = 0 → t.tm_hour = 11) ∧
      (s.regs 2 &&& 0x1f = 0x01 → s.regs 2 &&& PM_BIT = 0 → t.tm_hour = 0) := by
  have hle : s.regs 2 &&& 0x1f ≤ 0x1f := Nat.and_le_right
  have hmod : (s.regs 2 &&& 0x1f) % 256 = s.regs 2 &&& 0x1f := Nat.mod_eq_of_lt (by omega)
  have hget : (get_time s).1 = some (get_time_decode
      ((List.range 7).map (fun i => s.regs (TIME_REG + i)))) := by
    simp only [get_time, read_register_eq]
    rw [readI2C_ok _ _ _ hok]
  have hb2 : ((List.range 7).map (fun i => s.regs (TIME_REG + i))).getD 2 0 = s.regs 2 := by
    simp [TIME_REG, List.range_succ]
  have hhour : (get_time_decode ((List.range 7).map (fun i => s.regs (TIME_REG + i)))).tm_hour =
      (bcd2dec (s.regs 2 &&& 0x1f) : Int) - 1 +
        (if s.regs 2 &&& PM_BIT ≠ 0 then 12 else 0) := by
    simp only [get_time_decode, hb2, HOUR12_MASK, hmod]
    rw [if_pos h12]
    split <;> simp
  refine ⟨_, hget, hhour, ?_, ?_, ?_⟩
  · intro hf hpm
    rw [hhour, hf, if_pos hpm]
    decide
  · intro hf hpm
    rw [hhour, hf, if_neg (by simpa using hpm)]
    decide
  · intro hf hpm
    rw [hhour, hf, if_neg (by simpa using hpm)]
    decide

/-- C4 instance: hour byte 0x72 (12-hour mode, PM, field 12) reads back as hour 23. -/
theorem get_time_hour12_witness :
    noonPmBus.fails noonPmBus.log.length = false ∧ noonPmBus.regs 2 &&& HOUR12_BIT ≠ 0 ∧
      ∃ t, (get_time noonPmBus).1 = some t ∧ t.tm_hour = 23 := by
  obtain ⟨t, h1, -, h3, -⟩ := get_time_hour12 noonPmBus (by decide) (by decide)
  exact ⟨by decide, by decide, t, h1, h3 (by decide) (by decide)⟩

/-! ## Scratch memory -/

/-- C5: for every offset and length whose integer sum exceeds 56 (in particular
every pair in 0..255, such as 200 and 100, whose sum would wrap in 8 bits),
`read_rom` and `write_rom` return false and leave the bus untouched: no
transaction is added to the log. -/
theorem rom_out_of_bounds (s : Bus) (offset len : Nat) (buf : List Nat)
    (h : offset + len > 56) :
    read_rom s offset len = (none, s) ∧ write_rom s offset buf len = (false, s) ∧
      (read_rom s offset len).2.log = s.log ∧ (write_rom s offset buf len).2.log = s.log := by
  have hr : read_rom s offset len = (none, s) := by simp [read_rom, RAM_SIZE, h]
  have hw : write_rom s offset buf len = (false, s) := by simp [write_rom, RAM_SIZE, h]
  simp [hr, hw]

/-- C5 instance: `read_rom(50, 10)` on a bus that has issued nothing. -/
theorem rom_out_of_bounds_witness :
    50 + 10 > 56 ∧ (read_rom zeroBus 50 10).1 = none ∧ (read_rom zeroBus 50 10).2.log = [] :=
  ⟨by decide, by rw [(rom_out_of_bounds zeroBus 50 10 [] (by decide)).1],
    (rom_out_of_bounds zeroBus 50 10 [] (by decide)).2.2.1⟩

/-- Reading back the registers a successful write has just filled. -/
theorem read_after_write (regs : Nat → Nat) (reg : Nat) (data : List Nat) :
    (List.range data.length).map
        (fun i => (fun a => if reg ≤ a ∧ a < reg + data.length then data.getD (a - reg) 0
          else regs a) (reg + i)) = data := by
  apply List.ext_getElem
  · simp
  · intro i h1 h2
    have hi : i < data.length := h2
    simp [hi, List.getD_eq_getElem?_getD, List.getElem?_eq_getElem hi]

/-- C6: on a bus without errors, for every offset and length with
`offset + length ≤ 56` and every data of that length, `write_rom` succeeds and the
following `read_rom` of the same window succeeds and returns the data unchanged. -/
theorem rom_write_read (s : Bus) (offset len : Nat) (data : List Nat) (hne : NoErrors s)
    (hb : offset + len ≤ 56) (hl : data.length = len) :
    (write_rom s offset data len).1 = true ∧
      (read_rom (write_rom s offset data len).2 offset len).1 = some data := by
  subst hl
  have hw : write_rom s offset data data.length =
      writeI2C s ((RAM_REG + offset) % 256) data data.length := by
    have : ¬ offset + data.length > RAM_SIZE := by simp [RAM_SIZE]; omega
    simp only [write_rom, this, if_false, write_register_eq]
    split <;> simp_all
  rw [hw, writeI2C_ok _ _ _ _ (hne _)]
  refine ⟨rfl, ?_⟩
  have hr : ¬ offset + data.length > RAM_SIZE := by simp [RAM_SIZE]; omega
  have hne2 : ∀ n, s.fails n = false := hne
  simp only [read_rom, hr, if_false, read_register_eq, readI2C, hne2]
  simp only [Bool.false_eq_true, if_false, read_after_write]

/-- C6 instance: the whole scratch memory, offset 0 and length 56. -/
theorem rom_write_read_witness :
    NoErrors zeroBus ∧ 0 + 56 ≤ 56 ∧ sampleRom.length = 56 ∧
      (read_rom (write_rom zeroBus 0 sampleRom 56).2 0 56).1 = some sampleRom :=
  ⟨fun _ => rfl, by decide, by decide,
    (rom_write_read zeroBus 0 56 sampleRom (fun _ => rfl) (by decide) (by decide)).2⟩

/-! ## Masked updates without bus errors -/

theorem read_byte_noerr (s : Bus) (hne : NoErrors s) (reg : Nat) :
    read_register s reg 1 =
      (some [s.regs reg], ⟨s.regs, s.fails, s.log ++ [⟨false, reg, 1, true⟩]⟩) := by
  rw [read_register_eq, readI2C_ok _ _ _ (hne _)]
  simp [List.range_succ]

theorem update_register_noerr (s : Bus) (hne : NoErrors s) (reg mask val : Nat) :
    update_register s reg mask val =
      (true,
        ⟨fun a => if a = reg then ((s.regs reg &&& mask) ||| val) % 256 else s.regs a,
          s.fails, s.log ++ [⟨false, reg, 1, true⟩, ⟨true, reg, 1, true⟩]⟩) := by
  have hne2 : ∀ n, s.fails n = false := hne
  simp only [update_register, read_byte_noerr s hne, write_register_eq, writeI2C, hne2]
  simp only [Bool.false_eq_true, if_false, List.getD_cons_zero, List.append_assoc,
    List.singleton_append, Prod.mk.injEq, true_and, Bus.mk.injEq, and_true]
  funext a
  by_cases h : a = reg
  · subst h
    simp
  · have : ¬ (reg ≤ a ∧ a < reg + 1) := by omega
    simp [h, this]

set_option maxRecDepth 100000 in
/-- An `and` with a byte mask only looks at the low byte. -/
theorem and_byte (x m : Nat) (hm : m < 256) : x &&& m = (x % 256) &&& m := by
  have h1 : m = 255 &&& m := by
    have key : ∀ k, k < 256 → k = 255 &&& k := by decide
    exact key m hm
  have h2 : x &&& 255 = x % 256 := Nat.and_pow_two_sub_one_eq_mod x 8
  rw [h1, ← Nat.and_assoc, h2, ← Nat.and_assoc]
  congr 1
  have h3 : x % 256 &&& 255 = x % 256 % 256 := Nat.and_pow_two_sub_one_eq_mod (x % 256) 8
  rw [h3, Nat.mod_mod]

/-- C10: on a bus without errors, for every register, keep-mask byte and set-bits
byte, `update_register` returns true, leaves the register holding exactly
`(old & mask) | val` and leaves every other register unchanged. -/
theorem update_register_result (s : Bus) (hne : NoErrors s) (reg mask val : Nat)
    (hm : mask < 256) (hv : val < 256) :
    (update_register s reg mask val).1 = true ∧
      (update_register s reg mask val).2.regs reg = (s.regs reg &&& mask) ||| val ∧
      ∀ a, a ≠ reg → (update_register s reg mask val).2.regs a = s.regs a := by
  rw [update_register_noerr s hne]
  refine ⟨rfl, ?_, ?_⟩
  · have h1 : s.regs reg &&& mask < 2 ^ 8 := lt_of_le_of_lt Nat.and_le_right hm
    have h2 : (s.regs reg &&& mask) ||| val < 2 ^ 8 := Nat.or_lt_two_pow h1 hv
    simp only [if_true]
    exact Nat.mod_eq_of_lt h2
  · intro a ha
    simp [ha]

/-- C10 instance: keeping the high nibble of 0xb6 and setting bit 0 gives 0xb1. -/
theorem update_register_result_witness :
    NoErrors controlBus ∧ 0xf0 < 256 ∧ 0x01 < 256 ∧
      (update_register controlBus 7 0xf0 0x01).2.regs 7 = 0xb1 :=
  ⟨fun _ => rfl, by decide, by decide,
    (update_register_result controlBus (fun _ => rfl) 7 0xf0 0x01 (by decide) (by decide)).2.1⟩

/-! ## Oscillator and square-wave state -/

set_option maxRecDepth 100000 in
/-- The halt bit after the masked update done by `start`. -/
theorem halt_bit_after_start (old : Nat) :
    ((old &&& CH_MASK) ||| 0) % 256 &&& CH_BIT = 0 ∧
      ((old &&& CH_MASK) ||| CH_BIT) % 256 &&& CH_BIT ≠ 0 := by
  have key : ∀ v, v < 256 →
      ((v &&& CH_MASK) ||| 0) % 256 &&& CH_BIT = 0 ∧
        ((v &&& CH_MASK) ||| CH_BIT) % 256 &&& CH_BIT ≠ 0 := by
    decide
  rw [and_byte old CH_MASK (by decide)]
  exact key (old % 256) (Nat.mod_lt _ (by decide))

/-- C7: on a bus without errors, for every initial register state, `start(b)`
succeeds and the following `is_running()` returns `b`: false after `start(false)`,
true after `start(true)`. -/
theorem start_then_is_running (s : Bus) (hne : NoErrors s) (b : Bool) :
    (start s b).1 = true ∧ (is_running (start s b).2).1 = b := by
  have hst : start s b = update_register s TIME_REG CH_MASK (if b then 0 else CH_BIT) := by
    rw [start, update_register_noerr s hne]
  rw [hst, update_register_noerr s hne]
  refine ⟨rfl, ?_⟩
  have hne2 : NoErrors ⟨fun a => if a = TIME_REG then
      ((s.regs TIME_REG &&& CH_MASK) ||| (if b then 0 else CH_BIT)) % 256 else s.regs a,
      s.fails, s.log ++ [⟨false, TIME_REG, 1, true⟩, ⟨true, TIME_REG, 1, true⟩]⟩ := hne
  rw [is_running, read_byte_noerr _ hne2]
  have hb := halt_bit_after_start (s.regs TIME_REG)
  cases b with
  | true => simpa using hb.1
  | false => simpa using hb.2

/-- C7 instance: stopping then starting a halted clock; no hypothesis is left open
on the concrete bus. -/
theorem start_then_is_running_witness :
    NoErrors haltedBus ∧ (is_running (start haltedBus true).2).1 = true ∧
      (is_running (start haltedBus false).2).1 = false :=
  ⟨fun _ => rfl, (start_then_is_running haltedBus (fun _ => rfl) true).2,
    (start_then_is_running haltedBus (fun _ => rfl) false).2⟩

set_option maxRecDepth 100000 in
/-- The CONTROL byte after the masked update done by `set_squarewave_freq`. -/
theorem control_after_set_freq (old k : Nat) (hk : k < 4) :
    ofBits32 (((old &&& SQWEF_MASK) ||| k) % 256 &&& not32 SQWEF_MASK) = (k : Int) ∧
      (((old &&& SQWEF_MASK) ||| k) % 256 &&& SQWE_BIT ≠ 0 ↔ old &&& SQWE_BIT ≠ 0) ∧
      (((old &&& SQWEF_MASK) ||| k) % 256 &&& OUT_BIT ≠ 0 ↔ old &&& OUT_BIT ≠ 0) := by
  have key : ∀ v, v < 256 → ∀ j, j < 4 →
      ofBits32 (((v &&& SQWEF_MASK) ||| j) % 256 &&& not32 SQWEF_MASK) = (j : Int) ∧
        (((v &&& SQWEF_MASK) ||| j) % 256 &&& SQWE_BIT ≠ 0 ↔ v &&& SQWE_BIT ≠ 0) ∧
        (((v &&& SQWEF_MASK) ||| j) % 256 &&& OUT_BIT ≠ 0 ↔ v &&& OUT_BIT ≠ 0) := by
    decide
  rw [and_byte old SQWEF_MASK (by decide), and_byte old SQWE_BIT (by decide),
    and_byte old OUT_BIT (by decide)]
  exact key (old % 256) (Nat.mod_lt _ (by decide)) k hk

/-- C8: on a bus without errors, for every initial CONTROL byte and each of the four
enumeration values `f`, `set_squarewave_freq(f)` succeeds, the following
`get_squarewave_freq` returns `f`, and `is_squarewave_enabled()` and `get_output()`
return after the call what they returned before it. -/
theorem set_freq_then_get (s : Bus) (hne : NoErrors s) (f : ds1307_squarewave_freq_t)
    (hf : f ∈ freqValues) :
    (set_squarewave_freq s f).1 = true ∧
      (get_squarewave_freq (set_squarewave_freq s f).2).1 = some f ∧
      (is_squarewave_enabled (set_squarewave_freq s f).2).1 = (is_squarewave_enabled s).1 ∧
      (get_output (set_squarewave_freq s f).2).1 = (get_output s).1 := by
  obtain ⟨k, hk, hfk, hu8⟩ : ∃ k : Nat, k < 4 ∧ f = ⟨(k : Int)⟩ ∧ toU8 f.val = k := by
    simp only [freqValues, List.mem_cons, List.mem_singleton, List.not_mem_nil, or_false] at hf
    rcases hf with rfl | rfl | rfl | rfl
    · exact ⟨0, by decide, rfl, rfl⟩
    · exact ⟨1, by decide, rfl, rfl⟩
    · exact ⟨2, by decide, rfl, rfl⟩
    · exact ⟨3, by decide, rfl, rfl⟩
  rw [set_squarewave_freq, update_register_noerr s hne, hu8]
  have hne2 : NoErrors ⟨fun a => if a = CONTROL_REG then
      ((s.regs CONTROL_REG &&& SQWEF_MASK) ||| k) % 256 else s.regs a,
      s.fails, s.log ++ [⟨false, CONTROL_REG, 1, true⟩, ⟨true, CONTROL_REG, 1, true⟩]⟩ := hne
  have hc := control_after_set_freq (s.regs CONTROL_REG) k hk
  refine ⟨rfl, ?_, ?_, ?_⟩
  · rw [get_squarewave_freq, read_byte_noerr _ hne2]
    simp [hc.1, hfk]
  · rw [is_squarewave_enabled, is_squarewave_enabled, read_byte_noerr _ hne2,
      read_byte_noerr _ hne]
    simp [hc.2.1]
  · rw [get_output, get_output, read_byte_noerr _ hne2, read_byte_noerr _ hne]
    simp [hc.2.2]

/-- C8 instance: 8192 Hz on a CONTROL byte 0xb6 (output bit and enable bit set). -/
theorem set_freq_then_get_witness :
    NoErrors controlBus ∧ DS1307_8192HZ ∈ freqValues ∧
      (get_squarewave_freq (set_squarewave_freq controlBus DS1307_8192HZ).2).1 =
        some DS1307_8192HZ :=
  ⟨fun _ => rfl, by decide,
    (set_freq_then_get controlBus (fun _ => rfl) DS1307_8192HZ (by decide)).2.1⟩

/-! ## Bus failures -/

/-- The two outcomes of `read_register`. -/
theorem read_register_cases (s : Bus) (reg size : Nat) :
    (s.fails s.log.length = true ∧
      read_register s reg size =
        (none, ⟨s.regs, s.fails, s.log ++ [⟨false, reg, size, false⟩]⟩)) ∨
    (s.fails s.log.length = false ∧
      read_register s reg size =
        (some ((List.range size).map (fun i => s.regs (reg + i))),
          ⟨s.regs, s.fails, s.log ++ [⟨false, reg, size, true⟩]⟩)) := by
  rw [read_register_eq]
  cases hf : s.fails s.log.length with
  | true => exact Or.inl ⟨rfl, readI2C_err s reg size hf⟩
  | false => exact Or.inr ⟨rfl, readI2C_ok s reg size hf⟩

/-- The two outcomes of `write_register`. -/
theorem write_register_cases (s : Bus) (reg size : Nat) (val : List Nat) :
    (s.fails s.log.length = true ∧
      write_register s reg val size =
        (false, ⟨s.regs, s.fails, s.log ++ [⟨true, reg, size, false⟩]⟩)) ∨
    (s.fails s.log.length = false ∧
      write_register s reg val size =
        (true,
          ⟨fun a => if reg ≤ a ∧ a < reg + size then val.getD (a - reg) 0 else s.regs a,
            s.fails, s.log ++ [⟨true, reg, size, true⟩]⟩)) := by
  rw [write_register_eq]
  cases hf : s.fails s.log.length with
  | true => exact Or.inl ⟨rfl, writeI2C_err s reg size val hf⟩
  | false => exact Or.inr ⟨rfl, writeI2C_ok s reg size val hf⟩

theorem stops_nil (r : Bool) : StopsAtFailure r [] := by
  intro pre post e h
  simp at h

theorem stops_single (r : Bool) (e : Txn) (h : e.ok = false → r = false) :
    StopsAtFailure r [e] := by
  intro pre post e1 heq hok
  cases pre with
  | nil =>
    simp only [List.nil_append, List.cons.injEq] at heq
    obtain ⟨rfl, rfl⟩ := heq
    exact ⟨h hok, rfl⟩
  | cons a pre1 => simp at heq

theorem stops_pair (r : Bool) (e1 e2 : Txn) (h1 : e1.ok = true) (h2 : e2.ok = false → r = false) :
    StopsAtFailure r [e1, e2] := by
  intro pre post e heq hok
  cases pre with
  | nil =>
    simp only [List.nil_append, List.cons.injEq] at heq
    obtain ⟨rfl, -⟩ := heq
    rw [h1] at hok
    cases hok
  | cons a pre1 =>
    simp only [List.cons_append, List.cons.injEq] at heq
    exact stops_single r e2 h2 pre1 post e heq.2 hok

/-- The transactions of `update_register`: a failed read ends it with no write and
every register as before; after a successful read there is exactly one write. -/
theorem update_register_stops (s : Bus) (reg mask val : Nat) :
    ∃ new, (update_register s reg mask val).2.log = s.log ++ new ∧
      StopsAtFailure (update_register s reg mask val).1 new := by
  rcases read_register_cases s reg 1 with ⟨-, hr⟩ | ⟨-, hr⟩
  · refine ⟨[⟨false, reg, 1, false⟩], ?_, ?_⟩
    · simp [update_register, hr]
    · apply stops_single
      intro _
      simp [update_register, hr]
  · rcases write_register_cases ⟨s.regs, s.fails, s.log ++ [⟨false, reg, 1, true⟩]⟩ reg 1
        [((s.regs reg &&& mask) ||| val) % 256] with ⟨-, hw⟩ | ⟨-, hw⟩
    · refine ⟨[⟨false, reg, 1, true⟩, ⟨true, reg, 1, false⟩], ?_, ?_⟩
      · simp [update_register, hr, List.range_succ, hw]
      · apply stops_pair _ _ _ rfl
        intro _
        simp [update_register, hr, List.range_succ, hw]
    · refine ⟨[⟨false, reg, 1, true⟩, ⟨true, reg, 1, true⟩], ?_, ?_⟩
      · simp [update_register, hr, List.range_succ, hw]
      · apply stops_pair _ _ _ rfl
        intro h
        simp at h

theorem start_eq (s : Bus) (b : Bool) :
    start s b = update_register s TIME_REG CH_MASK (if b then 0 else CH_BIT) := by
  unfold start
  split <;> simp_all

theorem enable_squarewave_eq (s : Bus) (b : Bool) :
    enable_squarewave s b =
      update_register s CONTROL_REG SQWE_MASK (if b then SQWE_BIT else 0) := by
  unfold enable_squarewave
  split <;> simp_all

/-- An operation that makes one read and returns `post buf` on success. -/
theorem one_read_stops (s : Bus) (reg size : Nat) (r : Bool) (s2 : Bus)
    (h : (read_register s reg size).1 = none → r = false)
    (h2 : s2 = (read_register s reg size).2) :
    ∃ new, s2.log = s.log ++ new ∧ StopsAtFailure r new := by
  subst h2
  rcases read_register_cases s reg size with ⟨-, hr⟩ | ⟨-, hr⟩
  · refine ⟨[⟨false, reg, size, false⟩], by simp [hr], ?_⟩
    apply stops_single
    intro _
    exact h (by simp [hr])
  · refine ⟨[⟨false, reg, size, true⟩], by simp [hr], ?_⟩
    apply stops_single
    intro h3
    simp at h3

/-- An operation that makes one write and returns its outcome. -/
theorem one_write_stops (s : Bus) (reg size : Nat) (val : List Nat) :
    ∃ new, (write_register s reg val size).2.log = s.log ++ new ∧
      StopsAtFailure (write_register s reg val size).1 new := by
  rcases write_register_cases s reg size val with ⟨-, hw⟩ | ⟨-, hw⟩
  · refine ⟨[⟨true, reg, size, false⟩], by simp [hw], ?_⟩
    apply stops_single
    intro _
    simp [hw]
  · refine ⟨[⟨true, reg, size, true⟩], by simp [hw], ?_⟩
    apply stops_single
    intro h3
    simp at h3

theorem set_time_eq (s : Bus) (t : Tm) :
    set_time s t = write_register s TIME_REG (set_time_encode t) 7 := by
  unfold set_time
  split <;> simp_all

/-- When the first transaction of a call fails, the call returns false, no register
changes and at most that one transaction is logged. -/
theorem first_failure_result (s : Bus) (op : Op) (hf : s.fails s.log.length = true) :
    (op.run s).1 = false ∧ (op.run s).2.regs = s.regs ∧
      (op.run s).2.log.length ≤ s.log.length + 1 := by
  have hr : ∀ reg size, read_register s reg size =
      (none, ⟨s.regs, s.fails, s.log ++ [⟨false, reg, size, false⟩]⟩) := by
    intro reg size
    rw [read_register_eq, readI2C_err s reg size hf]
  have hw : ∀ reg size val, write_register s reg val size =
      (false, ⟨s.regs, s.fails, s.log ++ [⟨true, reg, size, false⟩]⟩) := by
    intro reg size val
    rw [write_register_eq, writeI2C_err s reg size val hf]
  have hu : ∀ reg mask val, update_register s reg mask val =
      (false, ⟨s.regs, s.fails, s.log ++ [⟨false, reg, 1, false⟩]⟩) := by
    intro reg mask val
    simp [update_register, hr]
  cases op with
  | start b => simp [Op.run, start_eq, hu]
  | is_running => simp [Op.run, is_running, hr]
  | get_time => simp [Op.run, get_time, hr]
  | set_time t => simp [Op.run, set_time_eq, hw]
  | enable_squarewave b => simp [Op.run, enable_squarewave_eq, hu]
  | is_squarewave_enabled => simp [Op.run, is_squarewave_enabled, hr]
  | get_squarewave_freq => simp [Op.run, get_squarewave_freq, hr]
  | set_squarewave_freq f => simp [Op.run, set_squarewave_freq, hu]
  | get_output => simp [Op.run, get_output, hr]
  | set_output b => simp [Op.run, set_output, hu]
  | read_rom offset len =>
    by_cases hb : offset + len > RAM_SIZE
    · simp [Op.run, read_rom, hb]
    · simp [Op.run, read_rom, hb, hr]
  | write_rom offset buf len =>
    by_cases hb : offset + len > RAM_SIZE
    · simp [Op.run, write_rom, hb]
    · simp [Op.run, write_rom, hb, hw]

/-- C9: every public operation stops at the first failing bus transaction: the
transactions it adds to the log contain no entry after a failed one, and when one
failed the operation returns false (for `get_time`, `get_squarewave_freq` and
`read_rom` the returned flag is whether an output was produced).  When the first
transaction fails the operation returns false, logs nothing more and changes no
register; in particular a masked update whose read fails issues no write and
leaves every register as it was. -/
theorem bus_failure_stops_operation (s : Bus) :
    (∀ op : Op, ∃ new, (op.run s).2.log = s.log ++ new ∧ StopsAtFailure (op.run s).1 new) ∧
      (∀ op : Op, s.fails s.log.length = true →
        (op.run s).1 = false ∧ (op.run s).2.regs = s.regs ∧
          (op.run s).2.log.length ≤ s.log.length + 1) ∧
      (∀ reg mask val, s.fails s.log.length = true →
        update_register s reg mask val =
          (false, ⟨s.regs, s.fails, s.log ++ [⟨false, reg, 1, false⟩]⟩)) := by
  refine ⟨?_, ?_, ?_⟩
  · intro op
    cases op with
    | start b =>
      simp only [Op.run, start_eq]
      exact update_register_stops s _ _ _
    | is_running =>
      refine one_read_stops s TIME_REG 1 _ _ ?_ ?_
      · simp only [Op.run]; unfold is_running; split <;> simp_all
      · simp only [Op.run]; unfold is_running; split <;> simp_all
    | get_time =>
      refine one_read_stops s TIME_REG 7 _ _ ?_ ?_
      · simp only [Op.run]; unfold get_time; split <;> simp_all
      · simp only [Op.run]; unfold get_time; split <;> simp_all
    | set_time t =>
      simp only [Op.run, set_time_eq]
      exact one_write_stops s _ _ _
    | enable_squarewave b =>
      simp only [Op.run, enable_squarewave_eq]
      exact update_register_stops s _ _ _
    | is_squarewave_enabled =>
      refine one_read_stops s CONTROL_REG 1 _ _ ?_ ?_
      · simp only [Op.run]; unfold is_squarewave_enabled; split <;> simp_all
      · simp only [Op.run]; unfold is_squarewave_enabled; split <;> simp_all
    | get_squarewave_freq =>
      refine one_read_stops s CONTROL_REG 1 _ _ ?_ ?_
      · simp only [Op.run]; unfold get_squarewave_freq; split <;> simp_all
      · simp only [Op.run]; unfold get_squarewave_freq; split <;> simp_all
    | set_squarewave_freq f =>
      simp only [Op.run, set_squarewave_freq]
      exact update_register_stops s _ _ _
    | get_output =>
      refine one_read_stops s CONTROL_REG 1 _ _ ?_ ?_
      · simp only [Op.run]; unfold get_output; split <;> simp_all
      · simp only [Op.run]; unfold get_output; split <;> simp_all
    | set_output b =>
      simp only [Op.run, set_output]
      exact update_register_stops s _ _ _
    | read_rom offset len =>
      by_cases hb : offset + len > RAM_SIZE
      · exact ⟨[], by simp [Op.run, read_rom, hb], stops_nil _⟩
      · refine one_read_stops s ((RAM_REG + offset) % 256) len _ _ ?_ ?_
        · simp only [Op.run, read_rom, hb, if_false]; split <;> simp_all
        · simp only [Op.run, read_rom, hb, if_false]; split <;> simp_all
    | write_rom offset buf len =>
      by_cases hb : offset + len > RAM_SIZE
      · exact ⟨[], by simp [Op.run, write_rom, hb], stops_nil _⟩
      · have hw : write_rom s offset buf len =
            write_register s ((RAM_REG + offset) % 256) buf len := by
          simp only [write_rom, hb, if_false]
          split <;> simp_all
        simp only [Op.run, hw]
        exact one_write_stops s _ _ _
  · intro op hf
    exact first_failure_result s op hf
  · intro reg mask val hf
    rcases read_register_cases s reg 1 with ⟨-, hr⟩ | ⟨hok, -⟩
    · simp [update_register, hr]
    · rw [hf] at hok
      cases hok

/-- C9 instance: on a bus whose every transaction fails, enabling the square wave
returns false after the one failed read, with the CONTROL register as before. -/
theorem bus_failure_stops_operation_witness :
    deadBus.fails deadBus.log.length = true ∧
      (update_register deadBus 7 0xef 0x10).1 = false ∧
      (update_register deadBus 7 0xef 0x10).2.regs 7 = 0xb6 ∧
      (update_register deadBus 7 0xef 0x10).2.log = [⟨false, 7, 1, false⟩] := by
  have h := (bus_failure_stops_operation deadBus).2.2 7 0xef 0x10 rfl
  rw [h]
  exact ⟨rfl, rfl, rfl, rfl⟩

/-- A write that fails after a successful read: `enable_squarewave` returns false,
the log shows the read then the failed write, and the register keeps its value. -/
theorem flaky_enable_squarewave :
    (enable_squarewave flakyBus true).1 = false ∧
      (enable_squarewave flakyBus true).2.log = [⟨false, 7, 1, true⟩, ⟨true, 7, 1, false⟩] ∧
      (enable_squarewave flakyBus true).2.regs 7 = 0xb6 := by
  decide

/-! ## Square-wave enable and output level -/

set_option maxRecDepth 100000 in
/-- The CONTROL byte after the masked update done by `enable_squarewave`. -/
theorem control_after_enable (old : Nat) :
    ((old &&& SQWE_MASK) ||| SQWE_BIT) % 256 &&& SQWE_BIT ≠ 0 ∧
      ((old &&& SQWE_MASK) ||| 0) % 256 &&& SQWE_BIT = 0 ∧
      ((old &&& SQWE_MASK) ||| SQWE_BIT) % 256 &&& SQWE_MASK = old &&& SQWE_MASK ∧
      ((old &&& SQWE_MASK) ||| 0) % 256 &&& SQWE_MASK = old &&& SQWE_MASK := by
  have key : ∀ v, v < 256 →
      ((v &&& SQWE_MASK) ||| SQWE_BIT) % 256 &&& SQWE_BIT ≠ 0 ∧
        ((v &&& SQWE_MASK) ||| 0) % 256 &&& SQWE_BIT = 0 ∧
        ((v &&& SQWE_MASK) ||| SQWE_BIT) % 256 &&& SQWE_MASK = v &&& SQWE_MASK ∧
        ((v &&& SQWE_MASK) ||| 0) % 256 &&& SQWE_MASK = v &&& SQWE_MASK := by
    decide
  rw [and_byte old SQWE_MASK (by decide)]
  exact key (old % 256) (Nat.mod_lt _ (by decide))

set_option maxRecDepth 100000 in
/-- Two bytes that agree under the mask 0xef agree in every bit but bit 4. -/
theorem bits_of_sqwe_mask (v w : Nat) (hv : v < 256) (hw : w < 256)
    (h : v &&& SQWE_MASK = w &&& SQWE_MASK) (i : Nat) (hi : i ≠ 4) :
    v.testBit i = w.testBit i := by
  by_cases h8 : i < 8
  · have hbit : SQWE_MASK.testBit i = true := by
      have key : ∀ j, j < 8 → j ≠ 4 → SQWE_MASK.testBit j = true := by decide
      exact key i h8 hi
    have h1 : (v &&& SQWE_MASK).testBit i = (w &&& SQWE_MASK).testBit i := by rw [h]
    simpa [Nat.testBit_and, hbit] using h1
  · have hp : 2 ^ 8 ≤ 2 ^ i := Nat.pow_le_pow_right (by decide) (by omega)
    rw [Nat.testBit_lt_two_pow (lt_of_lt_of_le hv hp),
      Nat.testBit_lt_two_pow (lt_of_lt_of_le hw hp)]

/-- C11: on a bus without errors, for every initial CONTROL byte and every boolean
`b`, `enable_squarewave(b)` succeeds, the following `is_squarewave_enabled()`
returns `b`, and every bit of the CONTROL register other than bit 4 (the output
bit, the frequency selector and the unused bits) is unchanged, as is every other
register. -/
theorem enable_squarewave_then_get (s : Bus) (hne : NoErrors s)
    (hbyte : s.regs CONTROL_REG < 256) (b : Bool) :
    (enable_squarewave s b).1 = true ∧
      (is_squarewave_enabled (enable_squarewave s b).2).1 = b ∧
      (∀ i, i ≠ 4 →
        ((enable_squarewave s b).2.regs CONTROL_REG).testBit i =
          (s.regs CONTROL_REG).testBit i) ∧
      (∀ a, a ≠ CONTROL_REG → (enable_squarewave s b).2.regs a = s.regs a) := by
  rw [enable_squarewave_eq, update_register_noerr s hne]
  have hne2 : NoErrors ⟨fun a => if a = CONTROL_REG then
      ((s.regs CONTROL_REG &&& SQWE_MASK) ||| (if b then SQWE_BIT else 0)) % 256
      else s.regs a,
      s.fails, s.log ++ [⟨false, CONTROL_REG, 1, true⟩, ⟨true, CONTROL_REG, 1, true⟩]⟩ := hne
  have hc := control_after_enable (s.regs CONTROL_REG)
  refine ⟨rfl, ?_, ?_, ?_⟩
  · rw [is_squarewave_enabled, read_byte_noerr _ hne2]
    cases b with
    | true => simpa using hc.1
    | false => simpa using hc.2.1
  · intro i hi
    simp only [if_true]
    apply bits_of_sqwe_mask _ _ (Nat.mod_lt _ (by decide)) hbyte _ i hi
    cases b with
    | true => simpa using hc.2.2.1
    | false => simpa using hc.2.2.2
  · intro a ha
    simp [ha]

/-- C11 instance: disabling the square wave on a CONTROL byte 0xb6 gives 0xa6. -/
theorem enable_squarewave_then_get_witness :
    NoErrors controlBus ∧ controlBus.regs CONTROL_REG < 256 ∧
      (is_squarewave_enabled (enable_squarewave controlBus false).2).1 = false ∧
      (enable_squarewave controlBus false).2.regs CONTROL_REG = 0xa6 :=
  ⟨fun _ => rfl, by decide,
    (enable_squarewave_then_get controlBus (fun _ => rfl) (by decide) false).2.1, by decide⟩

set_option maxRecDepth 100000 in
/-- The CONTROL byte after the masked update done by `set_output`. -/
theorem control_after_set_output (old : Nat) :
    ((old &&& OUT_MASK) ||| OUT_BIT) % 256 &&& OUT_BIT ≠ 0 ∧
      ((old &&& OUT_MASK) ||| 0) % 256 &&& OUT_BIT = 0 ∧
      ((old &&& OUT_MASK) ||| OUT_BIT) % 256 &&& 0x7f = old &&& 0x7f ∧
      ((old &&& OUT_MASK) ||| 0) % 256 &&& 0x7f = old &&& 0x7f := by
  have key : ∀ v, v < 256 →
      ((v &&& OUT_MASK) ||| OUT_BIT) % 256 &&& OUT_BIT ≠ 0 ∧
        ((v &&& OUT_MASK) ||| 0) % 256 &&& OUT_BIT = 0 ∧
        ((v &&& OUT_MASK) ||| OUT_BIT) % 256 &&& 0x7f = v &&& 0x7f ∧
        ((v &&& OUT_MASK) ||| 0) % 256 &&& 0x7f = v &&& 0x7f := by
    decide
  rw [and_byte old OUT_MASK (by decide), and_byte old 0x7f (by decide)]
  exact key (old % 256) (Nat.mod_lt _ (by decide))

/-- C12: on a bus without errors, for every initial CONTROL byte and every boolean
`b`, `set_output(b)` succeeds, the following `get_output()` returns `b`, the low
seven bits of the CONTROL register are unchanged, so `is_squarewave_enabled()`
returns what it returned before, and no other register changes. -/
theorem set_output_then_get (s : Bus) (hne : NoErrors s) (b : Bool) :
    (set_output s b).1 = true ∧
      (get_output (set_output s b).2).1 = b ∧
      (set_output s b).2.regs CONTROL_REG &&& 0x7f = s.regs CONTROL_REG &&& 0x7f ∧
      (is_squarewave_enabled (set_output s b).2).1 = (is_squarewave_enabled s).1 ∧
      (∀ a, a ≠ CONTROL_REG → (set_output s b).2.regs a = s.regs a) := by
  rw [set_output, update_register_noerr s hne]
  have hne2 : NoErrors ⟨fun a => if a = CONTROL_REG then
      ((s.regs CONTROL_REG &&& OUT_MASK) ||| (if b then OUT_BIT else 0)) % 256
      else s.regs a,
      s.fails, s.log ++ [⟨false, CONTROL_REG, 1, true⟩, ⟨true, CONTROL_REG, 1, true⟩]⟩ := hne
  have hc := control_after_set_output (s.regs CONTROL_REG)
  have hlow : ((s.regs CONTROL_REG &&& OUT_MASK) ||| (if b then OUT_BIT else 0)) % 256 &&& 0x7f =
      s.regs CONTROL_REG &&& 0x7f := by
    cases b with
    | true => simpa using hc.2.2.1
    | false => simpa using hc.2.2.2
  have hsq : ∀ x y : Nat, x &&& 0x7f = y &&& 0x7f → x &&& SQWE_BIT = y &&& SQWE_BIT := by
    intro x y hxy
    have e : SQWE_BIT = 0x7f &&& SQWE_BIT := by decide
    rw [e, ← Nat.and_assoc, ← Nat.and_assoc, hxy]
  refine ⟨rfl, ?_, ?_, ?_, ?_⟩
  · rw [get_output, read_byte_noerr _ hne2]
    cases b with
    | true => simpa using hc.1
    | false => simpa using hc.2.1
  · simpa using hlow
  · rw [is_squarewave_enabled, is_squarewave_enabled, read_byte_noerr _ hne2,
      read_byte_noerr _ hne]
    simp [hsq _ _ hlow]
  · intro a ha
    simp [ha]

/-- C12 instance: clearing the output bit of a CONTROL byte 0xb6 gives 0x36. -/
theorem set_output_then_get_witness :
    NoErrors controlBus ∧ (get_output (set_output controlBus false).2).1 = false ∧
      (set_output controlBus false).2.regs CONTROL_REG = 0x36 :=
  ⟨fun _ => rfl, (set_output_then_get controlBus (fun _ => rfl) false).2.1, by decide⟩

/-! ## The TIME block on the bus -/

theorem get_time_ok (s : Bus) (hf : s.fails s.log.length = false) :
    get_time s =
      (some (get_time_decode
          [s.regs 0, s.regs 1, s.regs 2, s.regs 3, s.regs 4, s.regs 5, s.regs 6]),
        ⟨s.regs, s.fails, s.log ++ [⟨false, TIME_REG, 7, true⟩]⟩) := by
  simp only [get_time, read_register_eq]
  rw [readI2C_ok _ _ _ hf]
  simp [TIME_REG, List.range_succ]

theorem set_time_ok (s : Bus) (hf : s.fails s.log.length = false) (t : Tm) :
    set_time s t =
      (true,
        ⟨fun a => if a < 7 then (set_time_encode t).getD a 0 else s.regs a,
          s.fails, s.log ++ [⟨true, TIME_REG, 7, true⟩]⟩) := by
  rw [set_time_eq, write_register_eq, writeI2C_ok _ _ _ _ hf]
  simp [TIME_REG]

/-- Without bus errors, `get_time` after `set_time` decodes the block just written. -/
theorem get_after_set (s : Bus) (hne : NoErrors s) (t : Tm) :
    (get_time (set_time s t).2).1 = some (get_time_decode (set_time_encode t)) := by
  rw [set_time_ok s (hne _) t]
  have hne2 : NoErrors ⟨fun a => if a < 7 then (set_time_encode t).getD a 0 else s.regs a,
      s.fails, s.log ++ [⟨true, TIME_REG, 7, true⟩]⟩ := hne
  rw [get_time_ok _ (hne2 _)]
  simp [set_time_encode]

/-- Below 100, `dec2bcd` puts the tens digit in the high nibble and the units
digit in the low nibble. -/
theorem dec2bcd_digits : ∀ m, m < 100 → dec2bcd m = (m / 10) * 16 + m % 10 := by
  decide

/-- The codec round trip for a time of the years 2000-2099. -/
theorem unpack_pack (t : Tm) (hv : validFields t)
    (hy : 100 ≤ t.tm_year ∧ t.tm_year ≤ 199) :
    get_time_decode (set_time_encode t) = t := by
  obtain ⟨⟨hs0, hs1⟩, ⟨hm0, hm1⟩, ⟨hh0, hh1⟩, ⟨hw0, hw1⟩, ⟨hd0, hd1⟩, ⟨ho0, ho1⟩⟩ := hv
  obtain ⟨hy0, hy1⟩ := hy
  have rs := toU8_lt t.tm_sec 0 59 (by simpa using hs0) (by simpa using hs1) (by decide)
  have rh := toU8_lt t.tm_hour 0 23 (by simpa using hh0) (by simpa using hh1) (by decide)
  have es : (toU8 t.tm_sec : Int) = t.tm_sec := toU8_of_range _ hs0 (by omega)
  have eh : (toU8 t.tm_hour : Int) = t.tm_hour := toU8_of_range _ hh0 (by omega)
  have fsec := seconds_byte (toU8 t.tm_sec) rs.2
  have fhour := hour24_byte (toU8 t.tm_hour) rh.2
  have fmin := bcd_field_roundtrip t.tm_min hm0 (by omega)
  have fwday := bcd_field_roundtrip (t.tm_wday + 1) (by omega) (by omega)
  have fmday := bcd_field_roundtrip t.tm_mday (by omega) (by omega)
  have fmon := bcd_field_roundtrip (t.tm_mon + 1) (by omega) (by omega)
  have fyear := bcd_field_roundtrip (t.tm_year - 100) (by omega) (by omega)
  cases t with
  | mk sec min hour mday mon year wday =>
    simp only [get_time_decode, set_time_encode, List.getD_cons_zero, List.getD_cons_succ] at *
    simp only [fsec.2, fhour.1, fhour.2, fmin, fwday, fmday, fmon, fyear, es, eh]
    simp

/-- C13: for every bus state and every time, `get_time` adds exactly one
transaction to the log, a read of 7 bytes starting at register 0, and `set_time`
adds exactly one, a write of 7 bytes starting at register 0; each succeeds or
fails as the bus decides and is never split or repeated. -/
theorem time_block_single_transaction (s : Bus) (t : Tm) :
    (get_time s).2.log = s.log ++ [⟨false, 0, 7, !(s.fails s.log.length)⟩] ∧
      (set_time s t).2.log = s.log ++ [⟨true, 0, 7, !(s.fails s.log.length)⟩] := by
  constructor
  · rcases read_register_cases s TIME_REG 7 with ⟨hf, hr⟩ | ⟨hf, hr⟩
    · rw [get_time, hr, hf]
      simp [TIME_REG]
    · rw [get_time, hr, hf]
      simp [TIME_REG]
  · rw [set_time_eq]
    rcases write_register_cases s TIME_REG 7 (set_time_encode t) with ⟨hf, hw⟩ | ⟨hf, hw⟩
    · rw [hw, hf]
      simp [TIME_REG]
    · rw [hw, hf]
      simp [TIME_REG]

/-- C14: for every time with seconds 0-59, minutes 0-59, hour 0-23, weekday 0-6,
day 1-31, month 0-11 and `tm_year` in 100..199, on a bus without errors `set_time`
succeeds, the year register (register 6) then holds the BCD of `tm_year - 100`
(tens digit in the high nibble, units digit in the low nibble), and the following
`get_time` returns the same time in every field, `tm_year` included. -/
theorem set_time_then_get_time (s : Bus) (hne : NoErrors s) (t : Tm) (hv : validFields t)
    (hy : 100 ≤ t.tm_year ∧ t.tm_year ≤ 199) :
    (set_time s t).1 = true ∧
      (∃ n : Nat, (n : Int) = t.tm_year - 100 ∧ n ≤ 99 ∧
        (set_time s t).2.regs 6 = (n / 10) * 16 + n % 10) ∧
      (get_time (set_time s t).2).1 = some t := by
  refine ⟨?_, ?_, ?_⟩
  · rw [set_time_ok s (hne _) t]
  · have hr := toU8_lt (t.tm_year - 100) 0 99 (by simpa using hy.1) (by simp; omega) (by decide)
    refine ⟨toU8 (t.tm_year - 100), toU8_of_range _ (by omega) (by omega), hr.2, ?_⟩
    rw [set_time_ok s (hne _) t]
    simp only [set_time_encode]
    simpa using dec2bcd_digits (toU8 (t.tm_year - 100)) (by omega)
  · rw [get_after_set s hne t, unpack_pack t hv hy]

/-- C14 instance: 1 January 2000 written to a zeroed bus; the year byte is 0x00. -/
theorem set_time_then_get_time_witness :
    NoErrors zeroBus ∧ validFields y2k ∧ (100 ≤ y2k.tm_year ∧ y2k.tm_year ≤ 199) ∧
      (get_time (set_time zeroBus y2k).2).1 = some y2k :=
  ⟨fun _ => rfl, by decide, by decide,
    (set_time_then_get_time zeroBus (fun _ => rfl) y2k (by decide) (by decide)).2.2⟩

/-- C16: for every time whose hour is in 0..23, the hour byte that `set_time` packs
is the 24-hour BCD of the hour (tens digit in the high nibble, units digit in the
low nibble) and has the 12-hour-mode bit (bit 6) clear; on a bus without errors the
following `get_time` therefore takes the 24-hour branch, decoding the hour as
`bcd2dec (byte & 0x3f)`, which is the hour that was set. -/
theorem set_time_hour_24h (s : Bus) (hne : NoErrors s) (t : Tm)
    (hh : 0 ≤ t.tm_hour ∧ t.tm_hour ≤ 23) :
    (∃ h : Nat, (h : Int) = t.tm_hour ∧ (set_time_encode t).getD 2 0 = (h / 10) * 16 + h % 10) ∧
      (set_time_encode t).getD 2 0 &&& HOUR12_BIT = 0 ∧
      (set_time s t).2.regs 2 = (set_time_encode t).getD 2 0 ∧
      ∃ t2, (get_time (set_time s t).2).1 = some t2 ∧
        t2.tm_hour = (bcd2dec (((set_time s t).2.regs 2 &&& HOUR24_MASK) % 256) : Int) ∧
        t2.tm_hour = t.tm_hour := by
  have hr := toU8_lt t.tm_hour 0 23 (by simpa using hh.1) (by simpa using hh.2) (by decide)
  have he : (toU8 t.tm_hour : Int) = t.tm_hour := toU8_of_range _ hh.1 (by omega)
  have hb := hour24_byte (toU8 t.tm_hour) hr.2
  have hbyte : (set_time_encode t).getD 2 0 = dec2bcd (toU8 t.tm_hour) := by
    simp [set_time_encode]
  have hreg : (set_time s t).2.regs 2 = (set_time_encode t).getD 2 0 := by
    rw [set_time_ok s (hne _) t]
    simp
  refine ⟨⟨toU8 t.tm_hour, he, ?_⟩, ?_, hreg, ?_⟩
  · rw [hbyte]
    exact dec2bcd_digits _ (by omega)
  · rw [hbyte]
    exact hb.1
  · refine ⟨_, get_after_set s hne t, ?_, ?_⟩
    · rw [hreg, hbyte]
      simp only [get_time_decode, set_time_encode, List.getD_cons_zero, List.getD_cons_succ]
      simp [hb.1]
    · simp only [get_time_decode, set_time_encode, List.getD_cons_zero, List.getD_cons_succ]
      simp [hb.1, hb.2, he]

/-- C16 instance: 23:59:59 is written with hour byte 0x23. -/
theorem set_time_hour_24h_witness :
    NoErrors zeroBus ∧ (0 ≤ eve1999.tm_hour ∧ eve1999.tm_hour ≤ 23) ∧
      (set_time zeroBus eve1999).2.regs 2 = 0x23 ∧
      (set_time_encode eve1999).getD 2 0 &&& HOUR12_BIT = 0 :=
  ⟨fun _ => rfl, by decide, by decide,
    (set_time_hour_24h zeroBus (fun _ => rfl) eve1999 (by decide)).2.1⟩

/-! ## Decoding register contents -/

set_option maxRecDepth 100000 in
/-- On a byte, `v & ~0xfc` computed on 32-bit `int` is the 2-bit selector `v & 3`. -/
theorem freq_selector_table :
    ∀ v, v < 256 → ofBits32 (v &&& not32 SQWEF_MASK) = ((v &&& 0x03 : Nat) : Int) ∧
      v &&& 0x03 < 4 := by
  decide

theorem get_squarewave_freq_ok (s : Bus) (hf : s.fails s.log.length = false)
    (hbyte : s.regs CONTROL_REG < 256) :
    (get_squarewave_freq s).1 = some ⟨((s.regs CONTROL_REG &&& 0x03 : Nat) : Int)⟩ := by
  rw [get_squarewave_freq, read_register_eq, readI2C_ok _ _ _ hf]
  simp [List.range_succ, (freq_selector_table _ hbyte).1]

/-- C15: for every CONTROL byte `v`, a `get_squarewave_freq` whose read succeeds
yields the enumeration value numerically equal to `v & 0x03`; it is one of the
four declared values, and two CONTROL bytes with the same low two bits yield the
same value, whatever their bits 2-7. -/
theorem get_squarewave_freq_selector (s : Bus) (hf : s.fails s.log.length = false)
    (hbyte : s.regs CONTROL_REG < 256) :
    (get_squarewave_freq s).1 = some ⟨((s.regs CONTROL_REG &&& 0x03 : Nat) : Int)⟩ ∧
      (∃ f, f ∈ freqValues ∧ (get_squarewave_freq s).1 = some f) ∧
      (∀ s2 : Bus, s2.fails s2.log.length = false → s2.regs CONTROL_REG < 256 →
        s2.regs CONTROL_REG &&& 0x03 = s.regs CONTROL_REG &&& 0x03 →
        (get_squarewave_freq s2).1 = (get_squarewave_freq s).1) := by
  have hmain := get_squarewave_freq_ok s hf hbyte
  refine ⟨hmain, ⟨_, ?_, hmain⟩, ?_⟩
  · have hlt := (freq_selector_table _ hbyte).2
    have key : ∀ k : Nat, k < 4 → (⟨(k : Int)⟩ : ds1307_squarewave_freq_t) ∈ freqValues := by
      decide
    exact key _ hlt
  · intro s2 hf2 hbyte2 hsame
    rw [hmain, get_squarewave_freq_ok s2 hf2 hbyte2, hsame]

/-- C15 instance: CONTROL byte 0xb6 has selector 2, the 8192 Hz value. -/
theorem get_squarewave_freq_selector_witness :
    controlBus.fails controlBus.log.length = false ∧ controlBus.regs CONTROL_REG < 256 ∧
      (get_squarewave_freq controlBus).1 = some DS1307_8192HZ :=
  ⟨rfl, by decide, (get_squarewave_freq_selector controlBus rfl (by decide)).1⟩

/-- A BCD byte with value in `lo..hi` decodes to a number in `lo..hi`. -/
theorem bcd2dec_of_bcdIn (b lo hi : Nat) (h : bcdIn b lo hi) (hhi : hi < 256) :
    lo ≤ bcd2dec b ∧ bcd2dec b ≤ hi := by
  obtain ⟨-, h1, h2⟩ := h
  unfold bcd2dec
  rw [Nat.mod_eq_of_lt (by omega)]
  exact ⟨h1, h2⟩

/-- Masking with a byte mask yields a byte. -/
theorem mask_mod (x m : Nat) (hm : m < 256) : (x &&& m) % 256 = x &&& m :=
  Nat.mod_eq_of_lt (lt_of_le_of_lt Nat.and_le_right hm)

/-- C17: for every register state whose TIME block holds values the chip can hold,
a `get_time` whose read succeeds returns normalized fields: seconds 0-59, minutes
0-59, hour 0-23, weekday 0-6, day 1-31, month 0-11 and `tm_year` 100-199. -/
theorem get_time_normalized (s : Bus) (hf : s.fails s.log.length = false)
    (hc : chipTimeBlock s.regs) :
    ∃ t, (get_time s).1 = some t ∧ validFields t ∧ 100 ≤ t.tm_year ∧ t.tm_year ≤ 199 := by
  obtain ⟨c0, c1, c2, c3, c4, c5, c6⟩ := hc
  have f0 := bcd2dec_of_bcdIn _ 0 59 c0 (by decide)
  have f1 := bcd2dec_of_bcdIn _ 0 59 c1 (by decide)
  have f3 := bcd2dec_of_bcdIn _ 1 7 c3 (by decide)
  have f4 := bcd2dec_of_bcdIn _ 1 31 c4 (by decide)
  have f5 := bcd2dec_of_bcdIn _ 1 12 c5 (by decide)
  have f6 := bcd2dec_of_bcdIn _ 0 99 c6 (by decide)
  refine ⟨_, by rw [get_time_ok s hf], ?_, ?_, ?_⟩
  · simp only [validFields, get_time_decode, List.getD_cons_zero, List.getD_cons_succ,
      SECONDS_MASK, HOUR12_MASK, HOUR24_MASK, HOUR12_BIT, PM_BIT, mask_mod _ _ (by decide : 0x7f < 256),
      mask_mod _ _ (by decide : 0x1f < 256), mask_mod _ _ (by decide : 0x3f < 256)]
    refine ⟨by omega, by omega, ?_, by omega, by omega, by omega⟩
    rcases c2 with ⟨h24, c24⟩ | ⟨h12, c12⟩
    · have f2 := bcd2dec_of_bcdIn _ 0 23 c24 (by decide)
      have h24b : s.regs 2 &&& 1 <<< 6 = 0 := h24
      simp only [h24b, ne_eq, not_true_eq_false, if_false]
      omega
    · have f2 := bcd2dec_of_bcdIn _ 1 12 c12 (by decide)
      have h12b : s.regs 2 &&& 1 <<< 6 ≠ 0 := h12
      simp only [h12b, ne_eq, not_false_eq_true, if_true]
      split <;> omega
  · simp only [get_time_decode, List.getD_cons_zero, List.getD_cons_succ]
    omega
  · simp only [get_time_decode, List.getD_cons_zero, List.getD_cons_succ]
    omega

/-- C17 instance: 11:59:58 PM on 31 December 2021, 12-hour mode, clock halted. -/
theorem get_time_normalized_witness :
    chipBus.fails chipBus.log.length = false ∧ chipTimeBlock chipBus.regs ∧
      ∃ t, (get_time chipBus).1 = some t ∧ validFields t ∧ 100 ≤ t.tm_year ∧
        t.tm_year ≤ 199 :=
  ⟨rfl, by decide, get_time_normalized chipBus rfl (by decide)⟩

/-! ## Frame properties -/

/-- C18: for every offset and length with `offset + length ≤ 56`, `read_rom` and
`write_rom` each add exactly one transaction to the log, starting at register
`8 + offset` (no 8-bit wraparound) with `length` bytes, so it covers only registers
in 8..63; `read_rom` changes no register and `write_rom` leaves every register
outside `[8 + offset, 8 + offset + length)` unchanged, registers 0-7 included. -/
theorem rom_single_transaction (s : Bus) (offset len : Nat) (buf : List Nat)
    (hb : offset + len ≤ 56) :
    (read_rom s offset len).2.log =
        s.log ++ [⟨false, 8 + offset, len, !(s.fails s.log.length)⟩] ∧
      (write_rom s offset buf len).2.log =
        s.log ++ [⟨true, 8 + offset, len, !(s.fails s.log.length)⟩] ∧
      (8 ≤ 8 + offset ∧ 8 + offset + len ≤ 64) ∧
      (read_rom s offset len).2.regs = s.regs ∧
      (∀ a, a < 8 + offset ∨ 8 + offset + len ≤ a →
        (write_rom s offset buf len).2.regs a = s.regs a) ∧
      (∀ a, a < 8 → (write_rom s offset buf len).2.regs a = s.regs a) := by
  have hin : ¬ offset + len > RAM_SIZE := by simp [RAM_SIZE]; omega
  have hreg : (RAM_REG + offset) % 256 = 8 + offset := by
    simp only [RAM_REG]
    omega
  have hrd : read_rom s offset len = read_register s (8 + offset) len := by
    simp only [read_rom, hin, if_false, hreg]
    split <;> simp_all
  have hwr : write_rom s offset buf len = write_register s (8 + offset) buf len := by
    simp only [write_rom, hin, if_false, hreg]
    split <;> simp_all
  have hframe : ∀ a, a < 8 + offset ∨ 8 + offset + len ≤ a →
      (write_rom s offset buf len).2.regs a = s.regs a := by
    intro a ha
    rw [hwr]
    rcases write_register_cases s (8 + offset) len buf with ⟨hf, hw⟩ | ⟨hf, hw⟩
    · rw [hw]
    · rw [hw]
      have hout : ¬ (8 + offset ≤ a ∧ a < 8 + offset + len) := by omega
      simp [hout]
  refine ⟨?_, ?_, ⟨by omega, by omega⟩, ?_, hframe, ?_⟩
  · rw [hrd]
    rcases read_register_cases s (8 + offset) len with ⟨hf, hr⟩ | ⟨hf, hr⟩
    · rw [hr, hf]
      simp
    · rw [hr, hf]
      simp
  · rw [hwr]
    rcases write_register_cases s (8 + offset) len buf with ⟨hf, hw⟩ | ⟨hf, hw⟩
    · rw [hw, hf]
      simp
    · rw [hw, hf]
      simp
  · rw [hrd]
    rcases read_register_cases s (8 + offset) len with ⟨hf, hr⟩ | ⟨hf, hr⟩
    · rw [hr]
    · rw [hr]
  · intro a ha
    exact hframe a (Or.inl (by omega))

/-- C18 instance: writing the last 6 scratch bytes of a bus holding 0xb6 in CONTROL
is one write at register 58 and leaves CONTROL as it was. -/
theorem rom_single_transaction_witness :
    50 + 6 ≤ 56 ∧
      (write_rom controlBus 50 [1, 2, 3, 4, 5, 6] 6).2.log = [⟨true, 58, 6, true⟩] ∧
      (write_rom controlBus 50 [1, 2, 3, 4, 5, 6] 6).2.regs 7 = 0xb6 := by
  have h := rom_single_transaction controlBus 50 6 [1, 2, 3, 4, 5, 6] (by decide)
  exact ⟨by decide, h.2.1, h.2.2.2.2.2 7 (by decide)⟩

/-- Decoding depends on byte 0 only through its low seven bits. -/
theorem decode_low_seven (b0 c0 : Nat) (rest : List Nat)
    (h : b0 &&& 0x7f = c0 &&& 0x7f) :
    get_time_decode (b0 :: rest) = get_time_decode (c0 :: rest) := by
  simp only [get_time_decode, List.getD_cons_zero, List.getD_cons_succ, SECONDS_MASK, h]

set_option maxRecDepth 100000 in
/-- The seconds bits after the masked update done by `start`. -/
theorem seconds_after_start (old : Nat) :
    ((old &&& CH_MASK) ||| 0) % 256 &&& 0x7f = old &&& 0x7f ∧
      ((old &&& CH_MASK) ||| CH_BIT) % 256 &&& 0x7f = old &&& 0x7f := by
  have key : ∀ v, v < 256 →
      ((v &&& CH_MASK) ||| 0) % 256 &&& 0x7f = v &&& 0x7f ∧
        ((v &&& CH_MASK) ||| CH_BIT) % 256 &&& 0x7f = v &&& 0x7f := by
    decide
  rw [and_byte old CH_MASK (by decide), and_byte old 0x7f (by decide)]
  exact key (old % 256) (Nat.mod_lt _ (by decide))

/-- C19: on a bus without errors, for every initial register state and every
boolean `b`, `start(b)` leaves the low seven bits of register 0 and every other
register unchanged, so `get_time` succeeds with the same calendar time after
`start(b)` as before it. -/
theorem start_keeps_time (s : Bus) (hne : NoErrors s) (b : Bool) :
    (start s b).2.regs TIME_REG &&& 0x7f = s.regs TIME_REG &&& 0x7f ∧
      (∀ a, a ≠ TIME_REG → (start s b).2.regs a = s.regs a) ∧
      (get_time (start s b).2).1 = (get_time s).1 ∧
      ∃ t, (get_time s).1 = some t := by
  rw [start_eq, update_register_noerr s hne]
  have hne2 : NoErrors ⟨fun a => if a = TIME_REG then
      ((s.regs TIME_REG &&& CH_MASK) ||| (if b then 0 else CH_BIT)) % 256 else s.regs a,
      s.fails, s.log ++ [⟨false, TIME_REG, 1, true⟩, ⟨true, TIME_REG, 1, true⟩]⟩ := hne
  have hc := seconds_after_start (s.regs TIME_REG)
  have hlow : ((s.regs TIME_REG &&& CH_MASK) ||| (if b then 0 else CH_BIT)) % 256 &&& 0x7f =
      s.regs TIME_REG &&& 0x7f := by
    cases b with
    | true => simpa using hc.1
    | false => simpa using hc.2
  refine ⟨by simpa using hlow, ?_, ?_, ⟨_, by rw [get_time_ok s (hne _)]⟩⟩
  · intro a ha
    simp [ha]
  · rw [get_time_ok _ (hne2 _), get_time_ok s (hne _)]
    simp only [TIME_REG] at hlow ⊢
    simp only [if_true, OfNat.ofNat_ne_zero, if_false, OfNat.ofNat_ne_one, Nat.succ_ne_zero,
      (by decide : (1 : Nat) ≠ 0), (by decide : (2 : Nat) ≠ 0), (by decide : (3 : Nat) ≠ 0),
      (by decide : (4 : Nat) ≠ 0), (by decide : (5 : Nat) ≠ 0), (by decide : (6 : Nat) ≠ 0)]
    rw [decode_low_seven _ _ _ hlow]

/-- C19 instance: starting a halted clock clears bit 7 of register 0 and nothing
else. -/
theorem start_keeps_time_witness :
    NoErrors haltedBus ∧ (start haltedBus true).2.regs TIME_REG = 0 ∧
      (get_time (start haltedBus true).2).1 = (get_time haltedBus).1 :=
  ⟨fun _ => rfl, by decide, (start_keeps_time haltedBus (fun _ => rfl) true).2.2.1⟩

/-- C20: for every two register states whose reads succeed and whose TIME blocks
differ at most in bit 7 of byte 0 (the same low seven bits in register 0, the same
registers 1-6), `get_time` decodes the same calendar time. -/
theorem get_time_ignores_halt (s1 s2 : Bus) (h1 : s1.fails s1.log.length = false)
    (h2 : s2.fails s2.log.length = false)
    (h0 : s1.regs 0 &&& 0x7f = s2.regs 0 &&& 0x7f)
    (hrest : ∀ a, 1 ≤ a → a ≤ 6 → s1.regs a = s2.regs a) :
    (get_time s1).1 = (get_time s2).1 ∧ ∃ t, (get_time s1).1 = some t := by
  refine ⟨?_, ⟨_, by rw [get_time_ok s1 h1]⟩⟩
  rw [get_time_ok s1 h1, get_time_ok s2 h2]
  rw [hrest 1 (by decide) (by decide), hrest 2 (by decide) (by decide),
    hrest 3 (by decide) (by decide), hrest 4 (by decide) (by decide),
    hrest 5 (by decide) (by decide), hrest 6 (by decide) (by decide),
    decode_low_seven _ _ _ h0]

/-- C20 instance: a halted bus and a running bus with the same time registers. -/
theorem get_time_ignores_halt_witness :
    haltedBus.regs 0 &&& 0x7f = zeroBus.regs 0 &&& 0x7f ∧
      haltedBus.regs 0 ≠ zeroBus.regs 0 ∧
      (get_time haltedBus).1 = (get_time zeroBus).1 :=
  ⟨by decide, by decide,
    (get_time_ignores_halt haltedBus zeroBus rfl rfl (by decide) (fun a ha _ => by
      have hne : a ≠ 0 := by omega
      simp [haltedBus, zeroBus, hne])).1⟩

end reDS1307
